import Mathlib

/-!
Verification development for the `doc-to-HTML` converter
(`src/converter.py`).  The Python code is shallowly embedded below: text is
modelled as `List Char` (named `Str`), each Python function of interest is
translated into an executable Lean definition with the same name where
possible, and the claims about the converter are settled as theorems at the
end of the file.

The embedding boundary is the output of `extract_all_lines_raw_and_html`:
a document is a list of `(raw_text, html_text)` pairs, exactly the data that
`parse_input_docx` consumes after extraction.  Paragraph-level extraction
(`paragraph_to_html`, `_extract_url_from_instr`) is embedded over an
explicit inline-element type mirroring the XML children the Python code
inspects.
-/

namespace DocToHtml

/-- Text is modelled as a list of characters. -/
abbrev Str := List Char

/-- Python whitespace (`str.strip`, regex `\s`) restricted to the ASCII
whitespace characters: space, tab, newline, carriage return, vertical tab,
form feed. -/
def pySpace (c : Char) : Bool :=
  c = ' ' || c = '\t' || c = '\n' || c = '\r' || c = '\x0b' || c = '\x0c'

/-- Python `str.lstrip()` : drop leading whitespace. -/
def lstrip (s : Str) : Str := s.dropWhile pySpace

/-- Python `str.rstrip()` : drop trailing whitespace. -/
def rstrip (s : Str) : Str := (s.reverse.dropWhile pySpace).reverse

/-- Python `str.strip()` : drop leading and trailing whitespace. -/
def strip (s : Str) : Str := lstrip (rstrip s)

/-- Python `re.sub(r"\s+", " ", k)` : collapse every whitespace run to one
space (a whitespace character followed by more whitespace is dropped, the
last of a run becomes a single space). -/
def collapseWS : Str → Str
  | [] => []
  | [c] => if pySpace c then [' '] else [c]
  | c :: d :: t =>
    if pySpace c then
      if pySpace d then collapseWS (d :: t)
      else ' ' :: collapseWS (d :: t)
    else c :: collapseWS (d :: t)

/-- Function `_normalize_key` (converter.py:114-117): strip, lowercase, collapse
internal whitespace. -/
def normalizeKey (k : Str) : Str :=
  collapseWS ((strip k).map Char.toLower)

-- =========================
-- HTML escaping (converter.py:53-89 `html_entities`, and
-- `html.escape(url, quote=True)` used for href attributes)
-- =========================

/-- The character-to-entity table applied by `html_entities`:
`html.escape(s, quote=False)` (`&`, `<`, `>`) followed by the fixed
typographic/accented replacement dict of converter.py:64-86.  All patterns
are single characters and no replacement value contains a later pattern, so
the sequential `str.replace` chain of the source acts character-wise. -/
def entityFor : List (Char × Str) :=
  [ ('&', "&amp;".data), ('<', "&lt;".data), ('>', "&gt;".data),
    ('’', "&rsquo;".data), ('‘', "&lsquo;".data),
    ('“', "&ldquo;".data), ('”', "&rdquo;".data),
    ('–', "&ndash;".data), ('—', "&mdash;".data), ('…', "&hellip;".data),
    ('à', "&agrave;".data), ('è', "&egrave;".data), ('é', "&eacute;".data),
    ('ì', "&igrave;".data), ('ò', "&ograve;".data), ('ù', "&ugrave;".data),
    ('À', "&Agrave;".data), ('È', "&Egrave;".data), ('É', "&Eacute;".data),
    ('Ì', "&Igrave;".data), ('Ò', "&Ograve;".data), ('Ù', "&Ugrave;".data),
    ('ô', "&ocirc;".data), ('Ô', "&Ocirc;".data) ]

/-- The character-to-entity table of `html.escape(s, quote=True)`, used for
`href` attribute values in `paragraph_to_html`. -/
def attrEntityFor : List (Char × Str) :=
  [ ('&', "&amp;".data), ('<', "&lt;".data), ('>', "&gt;".data),
    ('"', "&quot;".data), ('\'', "&#x27;".data) ]

/-- One character under a replacement table: its entity if it is a pattern,
itself otherwise. -/
def escCharBy (table : List (Char × Str)) (c : Char) : Str :=
  match table.find? (fun p => p.1 = c) with
  | some p => p.2
  | none => [c]

/-- Apply a character replacement table to a whole string. -/
def escapeBy (table : List (Char × Str)) : Str → Str
  | [] => []
  | c :: t => escCharBy table c ++ escapeBy table t

/-- Function `html_entities` (converter.py:53-89): empty-check, then escape `&<>`
and the typographic table. -/
def html_entities (s : Str) : Str :=
  if s.isEmpty then [] else escapeBy entityFor s

/-- Python `html.escape(url, quote=True)` as applied to href values. -/
def escapeAttr (s : Str) : Str := escapeBy attrEntityFor s

-- =========================
-- Regex matchers used by `parse_input_docx`
-- =========================

/-- The body-introducer words `TESTO_KEYS` (converter.py:46). -/
def TESTO_KEYS : List Str :=
  ["testo".data, "content".data, "article".data, "body".data,
   "testo articolo".data]

/-- Pattern `\s*$` with Python `$` semantics: the remainder must be all whitespace
(a final newline is itself whitespace, so this is exactly `all pySpace`). -/
def allWS (s : Str) : Bool := s.all pySpace

/-- Match one alternative of `testo_re`: the key (case-insensitively) at the
start, then `\s*`, then `:`, then `\s*$`. -/
def testoKeyMatch (key : Str) (s : Str) : Bool :=
  ((s.take key.length).map Char.toLower = key) &&
    (match (s.drop key.length).dropWhile pySpace with
     | ':' :: rest => allWS rest
     | _ => false)

/-- Match `testo_re.match(raw_line)` (converter.py:369):
`^(testo|content|article|body|testo articolo)\s*:\s*$`, `re.IGNORECASE`. -/
def testoMatch (s : Str) : Bool :=
  TESTO_KEYS.any (fun k => testoKeyMatch k s)

/-- Match `re.match` with `r"^([^:]{1,80})\s*:\s*(.*)$"` (converter.py:379):
returns `(group 1, group 2)` on success.

Semantics, traced from the regex: the `:` matched is necessarily the first
colon of the string (neither `[^:]` nor `\s` can consume a colon).  Writing
`lbl` for the text before the first colon, the label part matches iff
`1 ≤ lbl.length` and either `lbl.length ≤ 80` or everything in `lbl` past
the first 80 characters is whitespace (absorbed by `\s*`); the greedy group 1
is then `lbl.take 80`.  After the colon, `\s*` greedily eats whitespace and
`(.*)$` requires the rest to contain no newline except possibly one final
newline (excluded from a group 2); group 2 is that remainder. -/
def metaMatch? (s : Str) : Option (Str × Str) :=
  let lbl := s.takeWhile (fun c => c ≠ ':')
  if lbl.length = s.length then none          -- no colon at all
  else if lbl.isEmpty then none               -- colon at position 0
  else if lbl.length ≤ 80 || (lbl.drop 80).all pySpace then
    let tail := s.drop (lbl.length + 1)
    let t1 := tail.dropWhile pySpace
    let core := if t1.getLastD ' ' = '\n' then t1.dropLast else t1
    if core.contains '\n' then none
    else some (lbl.take 80, core)
  else none

/-- Match `re.match` with `r"^(.*)\s*\((h2|h3)\)\s*$"`, `re.IGNORECASE`
(converter.py:436): returns `(cleaned title, level)` on success.

Semantics, traced from the regex: after the final run of whitespace the
string must end with `(h2)` or `(h3)` (case-insensitive `h`); greedy `.*`
selects this last marker.  The text before the `(`, with its trailing
whitespace removed, must contain no newline (`.` cannot cross one and `\s*`
only absorbs whitespace); the cleaned title is that text stripped
(`m.group(1).strip()`). -/
def headingMatch? (s : Str) : Option (Str × Nat) :=
  match (rstrip s).reverse with
  | ')' :: d :: h :: '(' :: restRev =>
    if (d = '2' || d = '3') && (h = 'h' || h = 'H') then
      let pre := restRev.reverse
      if (rstrip pre).contains '\n' then none
      else some (strip pre, if d = '2' then 2 else 3)
    else none
  | _ => none

-- =========================
-- Metadata synonym table (converter.py:20-43)
-- =========================

/-- The canonical output keys, plus the H1 override. -/
inductive MetaKey
  | mTitle | mDescription | mURL | mTerritories | mTargetKeyword | mH1
  deriving DecidableEq

/-- Table `INPUT_KEY_MAP` (converter.py:23-43): normalized input label to
canonical key. -/
def inputKeyMap (k : Str) : Option MetaKey :=
  if k = "title".data || k = "seo title".data || k = "meta title".data then
    some .mTitle
  else if k = "description".data || k = "meta description".data then
    some .mDescription
  else if k = "url".data then some .mURL
  else if k = "territories".data || k = "territory".data then
    some .mTerritories
  else if k = "target keyword".data || k = "target keywords".data ||
          k = "kw".data || k = "keyword".data ||
          k = "primary keyword".data then some .mTargetKeyword
  else if k = "h1".data then some .mH1
  else none

/-- The `meta` dict of `parse_input_docx`: fixed keys, initialized empty. -/
structure Meta where
  title : Str
  description : Str
  url : Str
  territories : Str
  targetKeyword : Str
  deriving DecidableEq

def emptyMeta : Meta := ⟨[], [], [], [], []⟩

def setMeta (m : Meta) (k : MetaKey) (v : Str) : Meta :=
  match k with
  | .mTitle => { m with title := v }
  | .mDescription => { m with description := v }
  | .mURL => { m with url := v }
  | .mTerritories => { m with territories := v }
  | .mTargetKeyword => { m with targetKeyword := v }
  | .mH1 => m

-- =========================
-- `parse_input_docx` (converter.py:360-456), from the extracted line list on
-- =========================

/-- State of the metadata/body-split loop (converter.py:364-395). -/
structure MetaState where
  meta : Meta
  h1 : Str
  inTesto : Bool
  testoPairs : List (Str × Str)
  deriving DecidableEq

def initMetaState : MetaState := ⟨emptyMeta, [], false, []⟩

/-- The canonical meta key a line would select, if any (the guard of
converter.py:384). -/
def lineMetaKey (l : Str × Str) : Option MetaKey :=
  match metaMatch? l.1 with
  | some (g1, _) => inputKeyMap (normalizeKey g1)
  | none => none

/-- One step of the loop at converter.py:371-395. -/
def metaStep (st : MetaState) (l : Str × Str) : MetaState :=
  if testoMatch l.1 then { st with inTesto := true }
  else if st.inTesto then { st with testoPairs := st.testoPairs ++ [l] }
  else
    match metaMatch? l.1 with
    | some (g1, g2) =>
      let v := strip g2
      match inputKeyMap (normalizeKey g1) with
      | some .mH1 => { st with h1 := v }
      | some k => { st with meta := setMeta st.meta k v }
      | none => st
    | none => st

/-- The fallback of converter.py:397-407: if no body was collected, keep
every line that is not a recognized metadata line or body marker. -/
def fallbackBody (lines : List (Str × Str)) : List (Str × Str) :=
  lines.filter fun l =>
    match metaMatch? l.1 with
    | some (g1, _) =>
      let k := normalizeKey g1
      !(inputKeyMap k).isSome && !(TESTO_KEYS.contains k)
    | none => true

/-- The body pair list `testo_pairs` after the fallback. -/
def bodyPairs (lines : List (Str × Str)) : List (Str × Str) :=
  let st := lines.foldl metaStep initMetaState
  if st.testoPairs.isEmpty then fallbackBody lines else st.testoPairs

/-- A parsed section (converter.py:426): raw title, HTML body paragraphs. -/
structure Section where
  title_raw : Str
  paras_html : List Str
  deriving DecidableEq

/-- State of the intro/section loop (converter.py:418-449). -/
structure BodyState where
  intro : List Str
  secs : List Section
  curTitle : Option Str
  curParas : List Str
  deriving DecidableEq

def initBodyState : BodyState := ⟨[], [], none, []⟩

/-- Function `flush_section` (converter.py:423-428). -/
def flushSection (st : BodyState) : BodyState :=
  match st.curTitle with
  | some t =>
    { st with secs := st.secs ++ [⟨t, st.curParas⟩], curTitle := none,
              curParas := [] }
  | none => { st with curTitle := none, curParas := [] }

/-- One step of the loop at converter.py:430-447. -/
def bodyStep (st : BodyState) (p : Str × Str) : BodyState :=
  let rawT := strip p.1
  let htmlT := strip p.2
  if rawT.isEmpty && htmlT.isEmpty then st
  else
    match headingMatch? rawT with
    | some (t, _lvl) =>
      let st := flushSection st
      { st with curTitle := some t }
    | none =>
      match st.curTitle with
      | none =>
        if htmlT.isEmpty then st else { st with intro := st.intro ++ [htmlT] }
      | some _ =>
        if htmlT.isEmpty then st
        else { st with curParas := st.curParas ++ [htmlT] }

/-- The result record of `parse_input_docx` (converter.py:451-456). -/
structure Parsed where
  meta : Meta
  h1_raw : Str
  intro_paras_html : List Str
  sections : List Section
  deriving DecidableEq

/-- Function `parse_input_docx` (converter.py:360-456), from the extracted
`(raw, html)` line list on: metadata/body split, fallback, H1 resolution
(converter.py:409-415), then intro/section accumulation. -/
def parse_input (lines : List (Str × Str)) : Parsed :=
  let st := lines.foldl metaStep initMetaState
  let pairs := bodyPairs lines
  let h1a := if st.h1.isEmpty then strip st.meta.title else st.h1
  let h1b :=
    if h1a.isEmpty then
      match pairs.head? with
      | some p => strip p.1
      | none => []
    else h1a
  let h1c := if h1b.isEmpty then "Untitled".data else h1b
  let bst := flushSection (pairs.foldl bodyStep initBodyState)
  { meta := st.meta
    h1_raw := strip h1c
    intro_paras_html := bst.intro.filter (fun p => !p.isEmpty)
    sections := bst.secs }

-- =========================
-- HTML serialization (converter.py:463-496)
-- =========================

/-- Python `"\n\n".join(parts)`. -/
def joinNN : List Str → Str
  | [] => []
  | [x] => x
  | x :: xs => x ++ "\n\n".data ++ joinNN xs

/-- The styled paragraph wrapper used for intro and section bodies
(converter.py:473, 485). -/
def pTag (p : Str) : Str :=
  "<p class=\"h-text-size-14 h-font-primary\">".data ++ p ++ "</p>".data

/-- Function `build_html_rows` (converter.py:463-490). -/
def build_html_rows (parsed : Parsed) : List (Str × Str) :=
  let h1Row : Str × Str :=
    ("H1".data, "<h1>".data ++ html_entities parsed.h1_raw ++ "</h1>".data)
  let introHtml :=
    if parsed.intro_paras_html.isEmpty then pTag []
    else joinNN (parsed.intro_paras_html.map pTag)
  let secRows := parsed.sections.map fun sec =>
    let parts :=
      ("<h2><strong>".data ++ html_entities sec.title_raw ++
        "</strong></h2>".data) ::
      ((sec.paras_html.filter (fun p => !p.isEmpty)).map pTag)
    ("S3".data, strip (joinNN parts))
  h1Row :: ("Intro".data, introHtml) :: secRows

/-- Function `build_structure_of_content` (converter.py:492-496). -/
def build_structure_of_content (htmlRows : List (Str × Str)) : List Str :=
  "H1".data :: "Intro".data ::
    List.replicate (htmlRows.countP (fun r => r.1 = "S3".data)) "✏️ S3".data

-- =========================
-- Output writer, observable cell contents (converter.py:503-572)
-- =========================

/-- The labels `OUTPUT_META_LABELS` (converter.py:20). -/
def OUTPUT_META_LABELS : List Str :=
  ["Title".data, "Description".data, "URL".data, "Territories".data,
   "Target Keyword".data]

/-- Python `meta.get(key, "")` over the fixed-key dict. -/
def metaGet (m : Meta) (k : Str) : Str :=
  if k = "Title".data then m.title
  else if k = "Description".data then m.description
  else if k = "URL".data then m.url
  else if k = "Territories".data then m.territories
  else if k = "Target Keyword".data then m.targetKeyword
  else []

/-- The metadata table written by `write_output_docx` (converter.py:521-532):
one `(label, value)` row per output label, the value cell receiving the
metadata value RAW (`set_cell_text(right, meta.get(key, "") or "")`,
no entity encoding). -/
def write_output_meta_cells (parsed : Parsed) : List (Str × Str) :=
  OUTPUT_META_LABELS.map (fun k => (k, metaGet parsed.meta k))

-- =========================
-- Hyperlink URL extraction (converter.py:161-174)
-- =========================

/-- Try the pattern `HYPERLINK\s+"([^"]+)"` (`re.IGNORECASE`) anchored at the
current position: the literal token, at least one whitespace, a quote, at
least one non-quote character (captured), a closing quote. -/
def quotedAt (s : Str) : Option Str :=
  if (s.take 9).map Char.toLower = "hyperlink".data then
    let rest := s.drop 9
    let ws := rest.takeWhile pySpace
    if ws.isEmpty then none
    else
      match rest.drop ws.length with
      | '"' :: r2 =>
        let u := r2.takeWhile (fun c => c ≠ '"')
        if u.isEmpty then none
        else if (r2.drop u.length).isEmpty then none  -- no closing quote
        else some u
      | _ => none
  else none

/-- Python `re.search` of the quoted pattern: leftmost position at which
`quotedAt` succeeds. -/
def searchQuoted : Str → Option Str
  | [] => none
  | c :: t =>
    match quotedAt (c :: t) with
    | some u => some u
    | none => searchQuoted t

/-- Try the pattern `HYPERLINK\s+(\S+)` (`re.IGNORECASE`) anchored at the
current position. -/
def bareAt (s : Str) : Option Str :=
  if (s.take 9).map Char.toLower = "hyperlink".data then
    let rest := s.drop 9
    let ws := rest.takeWhile pySpace
    if ws.isEmpty then none
    else
      let u := (rest.drop ws.length).takeWhile (fun c => !(pySpace c))
      if u.isEmpty then none else some u
  else none

/-- Python `re.search` of the bare pattern: leftmost success. -/
def searchBare : Str → Option Str
  | [] => none
  | c :: t =>
    match bareAt (c :: t) with
    | some u => some u
    | none => searchBare t

/-- Function `_extract_url_from_instr` (converter.py:161-174): empty check,
strip, first quoted argument after `HYPERLINK`, else first
whitespace-delimited argument, else `"#"`. -/
def extractUrlFromInstr (instr : Str) : Str :=
  if instr.isEmpty then "#".data
  else
    let i := strip instr
    match searchQuoted i with
    | some u => strip u
    | none =>
      match searchBare i with
      | some u => strip u
      | none => "#".data

-- =========================
-- `paragraph_to_html` (converter.py:176-299)
-- =========================

/-- Values of the `w:fldCharType` attribute the code distinguishes. -/
inductive FldType
  | fldBegin | fldSeparate | fldEnd | fldOther
  deriving DecidableEq

/-- A paragraph child as inspected by `paragraph_to_html`:
a `w:hyperlink` element (its resolved relationship target, if any, and
the concatenated text of its runs), a `w:fldSimple` element (its `w:instr`
attribute, empty when missing, and its concatenated display text), or a run
(its first `w:fldChar` type if present, its first `w:instrText` content if
present, and its concatenated `w:t` text). -/
inductive PChild
  | hyperlink (target : Option Str) (text : Str)
  | fldSimple (instr : Str) (display : Str)
  | run (fld : Option FldType) (instr : Option Str) (txt : Str)
  deriving DecidableEq

/-- The anchor fragment `'<a href="{href}">{text}</a>'` with the href
attribute-escaped and the visible text entity-encoded
(converter.py:195-199, 226-230, 246-250). -/
def anchorHtml (url visible : Str) : Str :=
  "<a href=\"".data ++ escapeAttr url ++ "\">".data ++
    html_entities visible ++ "</a>".data

/-- The mutable state of `paragraph_to_html` (converter.py:180-188). -/
structure PState where
  parts : List Str
  inField : Bool
  fieldInstr : Str
  fieldUrl : Option Str
  afterSep : Bool
  displayParts : List Str
  deriving DecidableEq

def initPState : PState := ⟨[], false, [], none, false, []⟩

/-- Function `flush_field` (converter.py:190-205): emit the anchor when the
url is truthy and some display text was collected, then reset. -/
def flushField (st : PState) : PState :=
  let parts :=
    match st.fieldUrl with
    | some u =>
      if u.isEmpty then st.parts
      else if st.displayParts.isEmpty then st.parts
      else
        let visible := strip st.displayParts.flatten
        if visible.isEmpty then st.parts
        else st.parts ++ [anchorHtml u visible]
    | none => st.parts
  ⟨parts, false, [], none, false, []⟩

/-- The run handling after the `fldChar` begin/separate/end dispatch
(converter.py:279-294): instruction text accumulation, then plain or
display text. -/
def runRest (st : PState) (instr : Option Str) (txt : Str) : PState :=
  if instr.isSome && st.inField && !st.afterSep then
    { st with fieldInstr := st.fieldInstr ++ instr.getD [] }
  else if txt.isEmpty then st
  else if st.inField then
    if st.afterSep then { st with displayParts := st.displayParts ++ [txt] }
    else st
  else { st with parts := st.parts ++ [html_entities txt] }

/-- One child of the loop at converter.py:207-294. -/
def stepChild (st : PState) (c : PChild) : PState :=
  match c with
  | .hyperlink target text =>
    let url := target.getD "#".data
    let linkText := strip text
    if linkText.isEmpty then st
    else { st with parts := st.parts ++ [anchorHtml url linkText] }
  | .fldSimple instr display =>
    let url := extractUrlFromInstr instr
    let visible := strip display
    if visible.isEmpty then st
    else { st with parts := st.parts ++ [anchorHtml url visible] }
  | .run fld instr txt =>
    match fld with
    | some .fldBegin =>
      let st := if st.inField then flushField st else st
      { st with inField := true, fieldInstr := [], fieldUrl := none,
                afterSep := false, displayParts := [] }
    | some .fldSeparate =>
      if st.inField then
        { st with fieldUrl := some (extractUrlFromInstr st.fieldInstr),
                  afterSep := true }
      else runRest st instr txt
    | some .fldEnd =>
      if st.inField then flushField st
      else runRest st instr txt
    | _ => runRest st instr txt

/-- Function `paragraph_to_html` (converter.py:176-299): walk the children,
flush an unterminated field, join and strip. -/
def paragraph_to_html (children : List PChild) : Str :=
  let st := children.foldl stepChild initPState
  let st := if st.inField then flushField st else st
  strip st.parts.flatten

-- =========================
-- Specification-side predicates about escaped output
-- =========================

/-- Check that every ampersand in a string begins one of the given entity
bodies (so each special character was escaped exactly once and no raw `&`
remains). -/
def ampOkBy (tails : List Str) : Str → Bool
  | [] => true
  | c :: t =>
    ((if c = '&' then tails.any (fun e => e.isPrefixOf t) else true) : Bool)
      && ampOkBy tails t

/-- The entity bodies (after the `&`) that `html_entities` can emit. -/
def entityTails : List Str := entityFor.map (fun p => p.2.drop 1)

/-- The entity bodies (after the `&`) that attribute escaping can emit. -/
def attrEntityTails : List Str := attrEntityFor.map (fun p => p.2.drop 1)

-- =========================
-- Helper lemmas: stripping
-- =========================

theorem strip_nil : strip [] = [] := rfl

theorem lstrip_eq_self {l : Str} (h : ∀ c ∈ l.head?, pySpace c = false) :
    lstrip l = l := by
  cases l with
  | nil => rfl
  | cons c t =>
    have hc : pySpace c = false := h c rfl
    simp [lstrip, List.dropWhile_cons, hc]

theorem rstrip_eq_self {l : Str} (h : ∀ c ∈ l.getLast?, pySpace c = false) :
    rstrip l = l := by
  cases hr : l.reverse with
  | nil =>
    have : l = [] := by
      have := congrArg List.reverse hr
      simpa using this
    simp [this, rstrip]
  | cons c t =>
    have hc : pySpace c = false := by
      apply h
      rw [← List.head?_reverse, hr]; rfl
    have : l.reverse.dropWhile pySpace = l.reverse := by
      simp [hr, List.dropWhile_cons, hc]
    simp [rstrip, this]

theorem strip_eq_self {l : Str} (h1 : ∀ c ∈ l.head?, pySpace c = false)
    (h2 : ∀ c ∈ l.getLast?, pySpace c = false) : strip l = l := by
  rw [strip, rstrip_eq_self h2, lstrip_eq_self h1]

theorem head?_dropWhile (p : Char → Bool) :
    ∀ l : Str, ∀ c ∈ (l.dropWhile p).head?, p c = false
  | [] => by intro c hc; cases hc
  | a :: t => by
    intro c hc
    by_cases h : p a
    · rw [List.dropWhile_cons_of_pos h] at hc
      exact head?_dropWhile p t c hc
    · rw [List.dropWhile_cons_of_neg h] at hc
      simp only [List.head?_cons, Option.mem_def, Option.some.injEq] at hc
      rw [← hc]
      exact Bool.eq_false_iff.mpr h

theorem getLast?_lstrip {l : Str} (h : lstrip l ≠ []) :
    (lstrip l).getLast? = l.getLast? := by
  obtain ⟨x, hx⟩ : ∃ x, (lstrip l).getLast? = some x := by
    cases hg : (lstrip l).getLast? with
    | none => exact absurd (List.getLast?_eq_none_iff.mp hg) h
    | some x => exact ⟨x, rfl⟩
  have key := List.takeWhile_append_dropWhile pySpace l
  have : l.getLast? =
      ((l.dropWhile pySpace).getLast?).or ((l.takeWhile pySpace).getLast?) := by
    conv_lhs => rw [← key]
    exact List.getLast?_append
  rw [hx]
  rw [this, show (l.dropWhile pySpace : Str) = lstrip l from rfl, hx]
  rfl

theorem strip_idem (s : Str) : strip (strip s) = strip s := by
  by_cases hne : strip s = []
  · rw [hne]
    rfl
  · have h1 : ∀ c ∈ (strip s).head?, pySpace c = false :=
      fun c hc => head?_dropWhile pySpace (rstrip s) c hc
    have h2 : ∀ c ∈ (strip s).getLast?, pySpace c = false := by
      intro c hc
      rw [show strip s = lstrip (rstrip s) from rfl, getLast?_lstrip hne] at hc
      rw [show (rstrip s : Str) = (s.reverse.dropWhile pySpace).reverse from rfl,
        ← List.head?_reverse, List.reverse_reverse] at hc
      exact head?_dropWhile pySpace s.reverse c hc
    exact strip_eq_self h1 h2

-- =========================
-- Helper lemmas: prefixes, takeWhile
-- =========================

theorem isPrefixOf_append_self : ∀ a b : Str, a.isPrefixOf (a ++ b) = true
  | [], _ => by simp [List.isPrefixOf]
  | c :: t, b => by
    have ih := isPrefixOf_append_self t b
    simp [List.isPrefixOf, ih]

theorem takeWhile_append_of_all {p : Char → Bool} :
    ∀ {u : Str}, (∀ c ∈ u, p c = true) →
      ∀ v : Str, (u ++ v).takeWhile p = u ++ v.takeWhile p
  | [], _, _ => rfl
  | c :: t, h, v => by
    have hc : p c = true := h c (List.mem_cons_self c t)
    have ht : ∀ c ∈ t, p c = true := fun x hx => h x (List.mem_cons_of_mem c hx)
    simp [List.takeWhile_cons, hc, takeWhile_append_of_all ht v]

-- =========================
-- Helper lemmas: `ampOkBy` and `escapeBy`
-- =========================

theorem ampOkBy_append_of_not_mem (tails : List Str) {x : Str}
    (hx : '&' ∉ x) (r : Str) :
    ampOkBy tails (x ++ r) = ampOkBy tails r := by
  induction x with
  | nil => rfl
  | cons c t ih =>
    have hc : c ≠ '&' := fun h => hx (h ▸ List.mem_cons_self c t)
    have ht : '&' ∉ t := fun h => hx (List.mem_cons_of_mem c h)
    have hne : ¬(c = '&') := hc
    simp [ampOkBy, if_neg hne, ih ht]

theorem ampOkBy_entity {tails : List Str} {tl : Str} (h1 : tl ∈ tails)
    (h2 : '&' ∉ tl) {r : Str} (hr : ampOkBy tails r = true) :
    ampOkBy tails ('&' :: (tl ++ r)) = true := by
  simp only [ampOkBy, if_pos rfl, Bool.and_eq_true]
  constructor
  · exact List.any_eq_true.mpr ⟨tl, h1, isPrefixOf_append_self tl r⟩
  · rw [ampOkBy_append_of_not_mem tails h2 r]; exact hr

theorem ampOkBy_escapeBy {table : List (Char × Str)} {tails : List Str}
    (htab : ∀ p ∈ table,
      p.2 = '&' :: p.2.drop 1 ∧ p.2.drop 1 ∈ tails ∧ '&' ∉ p.2.drop 1)
    (hamp : (table.find? (fun p => p.1 = '&')).isSome = true) :
    ∀ s : Str, ampOkBy tails (escapeBy table s) = true
  | [] => rfl
  | c :: t => by
    have ih := ampOkBy_escapeBy htab hamp t
    show ampOkBy tails (escCharBy table c ++ escapeBy table t) = true
    cases hf : table.find? (fun p => p.1 = c) with
    | some p =>
      obtain ⟨h1, h2, h3⟩ := htab p (List.mem_of_find?_eq_some hf)
      simp only [escCharBy, hf]
      rw [h1, List.cons_append]
      exact ampOkBy_entity h2 h3 ih
    | none =>
      have hc : ¬(c = '&') := by
        intro h
        subst h
        rw [hf] at hamp
        exact absurd hamp (by simp)
      rw [escCharBy, hf, List.singleton_append]
      simp [ampOkBy, if_neg hc]
      exact ih

theorem not_mem_escapeBy {table : List (Char × Str)} {c₀ : Char}
    (htab : ∀ p ∈ table, c₀ ∉ p.2)
    (hc : (table.find? (fun p => p.1 = c₀)).isSome = true) :
    ∀ s : Str, c₀ ∉ escapeBy table s
  | [] => by simp [escapeBy]
  | c :: t => by
    have ih := not_mem_escapeBy htab hc t
    show c₀ ∉ escCharBy table c ++ escapeBy table t
    rw [List.mem_append]
    rintro (h | h)
    · cases hf : table.find? (fun p => p.1 = c) with
      | some p =>
        simp only [escCharBy, hf] at h
        exact htab p (List.mem_of_find?_eq_some hf) h
      | none =>
        simp only [escCharBy, hf] at h
        have : c₀ = c := by simpa using h
        subst this
        rw [hf] at hc
        exact absurd hc (by simp)
    · exact ih h

theorem length_escapeBy_le {table : List (Char × Str)}
    (hne : ∀ p ∈ table, p.2 ≠ []) :
    ∀ s : Str, s.length ≤ (escapeBy table s).length
  | [] => Nat.le_refl _
  | c :: t => by
    have ih := length_escapeBy_le hne t
    show (c :: t).length ≤ (escCharBy table c ++ escapeBy table t).length
    rw [List.length_cons, List.length_append]
    have h1 : 1 ≤ (escCharBy table c).length := by
      rw [escCharBy]
      cases hf : table.find? (fun p => p.1 = c) with
      | some p =>
        have := hne p (List.mem_of_find?_eq_some hf)
        simpa [Nat.succ_le, List.length_pos] using this
      | none => simp
    omega

theorem amp_mem_escapeBy_entityFor {s : Str} (h : '&' ∈ s) :
    '&' ∈ escapeBy entityFor s := by
  induction s with
  | nil => cases h
  | cons c t ih =>
    show '&' ∈ escCharBy entityFor c ++ escapeBy entityFor t
    rw [List.mem_append]
    rcases List.mem_cons.mp h with rfl | ht
    · left
      have : escCharBy entityFor '&' = "&amp;".data := by decide
      rw [this]
      decide
    · right; exact ih ht

theorem length_lt_escapeBy_entityFor {s : Str} (h : '&' ∈ s) :
    s.length < (escapeBy entityFor s).length := by
  have hne : ∀ p ∈ entityFor, p.2 ≠ [] := by decide
  induction s with
  | nil => cases h
  | cons c t ih =>
    show (c :: t).length < (escCharBy entityFor c ++ escapeBy entityFor t).length
    rw [List.length_cons, List.length_append]
    rcases List.mem_cons.mp h with rfl | ht
    · have h5 : escCharBy entityFor '&' = "&amp;".data := by decide
      have hlen : ("&amp;".data).length = 5 := by decide
      have := length_escapeBy_le hne t
      rw [h5, hlen]
      omega
    · have h1 : 1 ≤ (escCharBy entityFor c).length := by
        rw [escCharBy]
        cases hf : entityFor.find? (fun p => p.1 = c) with
        | some p =>
          have := hne p (List.mem_of_find?_eq_some hf)
          simpa [Nat.succ_le, List.length_pos] using this
        | none => simp
      have := ih ht
      omega

-- =========================
-- Helper lemmas: `joinNN` shape and anchor stripping
-- =========================

theorem joinNN_cons_eq_append (x : Str) (xs : List Str) :
    ∃ y : Str, joinNN (x :: xs) = x ++ y := by
  cases xs with
  | nil => exact ⟨[], (List.append_nil x).symm⟩
  | cons z zs => exact ⟨"\n\n".data ++ joinNN (z :: zs), by simp [joinNN]⟩

theorem joinNN_cons_cons (x z : Str) (zs : List Str) :
    joinNN (x :: z :: zs) = x ++ ("\n\n".data ++ joinNN (z :: zs)) := by
  simp [joinNN, List.append_assoc]

theorem joinNN_getLast? {l : List Str} {c : Char}
    (hne : l ≠ [])
    (h : ∀ x ∈ l, x.getLast? = some c) :
    (joinNN l).getLast? = some c := by
  induction l with
  | nil => exact absurd rfl hne
  | cons x xs ih =>
    cases xs with
    | nil => exact h x (List.mem_cons_self x [])
    | cons z zs =>
      have hz : (joinNN (z :: zs)).getLast? = some c :=
        ih (by simp) (fun y hy => h y (List.mem_cons_of_mem x hy))
      have hnz : joinNN (z :: zs) ≠ [] := by
        intro hc
        rw [hc] at hz
        exact Option.noConfusion hz
      rw [joinNN_cons_cons, List.getLast?_append, List.getLast?_append, hz]
      rfl

theorem anchorHtml_getLast? (u v : Str) :
    (anchorHtml u v).getLast? = some '>' := by
  rw [anchorHtml]
  rw [List.getLast?_append, List.getLast?_append, List.getLast?_append,
      List.getLast?_append]
  rfl

theorem strip_anchorHtml (u v : Str) : strip (anchorHtml u v) = anchorHtml u v := by
  apply strip_eq_self
  · intro c hc
    have : (anchorHtml u v).head? = some '<' := rfl
    rw [this] at hc
    cases hc
    decide
  · intro c hc
    rw [anchorHtml_getLast? u v] at hc
    cases hc
    decide

-- =========================
-- Helper lemmas: the metadata fold
-- =========================

theorem metaStep_h1 {st : MetaState} {l : Str × Str}
    (h : lineMetaKey l ≠ some MetaKey.mH1) : (metaStep st l).h1 = st.h1 := by
  rw [metaStep]
  split_ifs with ht hin
  · rfl
  · rfl
  · rw [lineMetaKey] at h
    cases hm : metaMatch? l.1 with
    | none => rfl
    | some g =>
      obtain ⟨g1, g2⟩ := g
      rw [hm] at h
      cases hk2 : inputKeyMap (normalizeKey g1) with
      | none => simp only [hk2]
      | some k =>
        cases k <;> first
          | exact absurd hk2 h
          | (simp only [hk2])

theorem metaFold_h1 {lines : List (Str × Str)}
    (h : ∀ l ∈ lines, lineMetaKey l ≠ some MetaKey.mH1) :
    ∀ st : MetaState, (lines.foldl metaStep st).h1 = st.h1 := by
  induction lines with
  | nil => intro st; rfl
  | cons l ls ih =>
    intro st
    have hl := h l (List.mem_cons_self l ls)
    have hls := fun x hx => h x (List.mem_cons_of_mem l hx)
    rw [List.foldl_cons, ih hls, metaStep_h1 hl]

theorem setMeta_title {m : Meta} {k : MetaKey} {v : Str}
    (h : k ≠ MetaKey.mTitle) : (setMeta m k v).title = m.title := by
  cases k <;> first | rfl | exact absurd rfl h

theorem metaStep_title {st : MetaState} {l : Str × Str}
    (h : lineMetaKey l ≠ some MetaKey.mTitle) :
    (metaStep st l).meta.title = st.meta.title := by
  rw [metaStep]
  split_ifs with ht hin
  · rfl
  · rfl
  · rw [lineMetaKey] at h
    cases hm : metaMatch? l.1 with
    | none => rfl
    | some g =>
      obtain ⟨g1, g2⟩ := g
      rw [hm] at h
      cases hk2 : inputKeyMap (normalizeKey g1) with
      | none => simp only [hk2]
      | some k =>
        cases k <;> first
          | exact absurd hk2 h
          | (simp only [hk2]
             exact setMeta_title (by intro hc; cases hc))
          | (simp only [hk2])

theorem metaFold_title {lines : List (Str × Str)}
    (h : ∀ l ∈ lines, lineMetaKey l ≠ some MetaKey.mTitle) :
    ∀ st : MetaState, (lines.foldl metaStep st).meta.title = st.meta.title := by
  induction lines with
  | nil => intro st; rfl
  | cons l ls ih =>
    intro st
    have hl := h l (List.mem_cons_self l ls)
    have hls := fun x hx => h x (List.mem_cons_of_mem l hx)
    rw [List.foldl_cons, ih hls, metaStep_title hl]

theorem metaStep_no_marker {st : MetaState} {l : Str × Str}
    (hm : testoMatch l.1 = false) (hst : st.inTesto = false) :
    (metaStep st l).inTesto = false ∧
      (metaStep st l).testoPairs = st.testoPairs := by
  rw [metaStep]
  split_ifs with ht hin
  · rw [hm] at ht; cases ht
  · rw [hst] at hin; cases hin
  · cases hq : metaMatch? l.1 with
    | none => exact ⟨hst, rfl⟩
    | some g =>
      obtain ⟨g1, g2⟩ := g
      cases hk2 : inputKeyMap (normalizeKey g1) with
      | none => simp only [hk2]; exact ⟨hst, by trivial⟩
      | some k =>
        cases k <;> simp only [hk2] <;> exact ⟨hst, by trivial⟩

theorem metaFold_no_marker {lines : List (Str × Str)}
    (h : ∀ l ∈ lines, testoMatch l.1 = false) :
    ∀ st : MetaState, st.inTesto = false →
      (lines.foldl metaStep st).inTesto = false ∧
      (lines.foldl metaStep st).testoPairs = st.testoPairs := by
  induction lines with
  | nil => exact fun st hst => ⟨hst, rfl⟩
  | cons l ls ih =>
    intro st hst
    have hl := h l (List.mem_cons_self l ls)
    have hls := fun x hx => h x (List.mem_cons_of_mem l hx)
    rw [List.foldl_cons]
    obtain ⟨h1, h2⟩ := metaStep_no_marker hl hst
    obtain ⟨hi, hp⟩ := ih hls (metaStep st l) h1
    exact ⟨hi, by rw [hp, h2]⟩

-- =========================
-- Helper lemmas: the body fold
-- =========================

theorem bodyStep_no_heading_empty {st : BodyState} {q : Str × Str}
    (hq : headingMatch? (strip q.1) = none) (hst : st.curTitle = none)
    (he : (strip q.2).isEmpty = true) : bodyStep st q = st := by
  rw [bodyStep]
  split_ifs with hb
  · rfl
  · rw [hq, hst]

theorem bodyStep_no_heading_nonempty {st : BodyState} {q : Str × Str}
    (hq : headingMatch? (strip q.1) = none) (hst : st.curTitle = none)
    (he : (strip q.2).isEmpty = false) :
    bodyStep st q = { st with intro := st.intro ++ [strip q.2] } := by
  rw [bodyStep]
  split_ifs with hb hemp
  · rw [Bool.and_eq_true] at hb
    rw [hb.2] at he
    cases he
  · rw [hemp] at he
    cases he
  · rw [hq, hst]

theorem bodyFold_no_heading {pairs : List (Str × Str)}
    (h : ∀ p ∈ pairs, headingMatch? (strip p.1) = none) :
    ∀ st : BodyState, st.curTitle = none →
      pairs.foldl bodyStep st =
        { st with intro := st.intro ++
            ((pairs.map (fun p => strip p.2)).filter (fun t => !t.isEmpty)) } := by
  induction pairs with
  | nil =>
    intro st hst
    cases st with
    | mk i s c p => simp
  | cons q qs ih =>
    intro st hst
    have hq := h q (List.mem_cons_self q qs)
    have hqs := fun x hx => h x (List.mem_cons_of_mem q hx)
    rw [List.foldl_cons]
    cases he : (strip q.2).isEmpty with
    | true =>
      rw [bodyStep_no_heading_empty hq hst he, ih hqs st hst]
      simp [List.filter_cons, he]
    | false =>
      rw [bodyStep_no_heading_nonempty hq hst he]
      have hct : ({ st with intro := st.intro ++ [strip q.2] } :
          BodyState).curTitle = none := hst
      rw [ih hqs _ hct]
      simp [List.filter_cons, he]

-- =========================
-- Claims
-- =========================

/-- C8: For an empty input document (no extracted lines at all), parsing
succeeds: H1 resolves to "Untitled", the intro paragraph list and Section
list are both empty, and output rows are still produced (the H1 row and the
placeholder Intro row). -/
theorem c8_empty_document :
    parse_input [] =
      { meta := emptyMeta, h1_raw := "Untitled".data,
        intro_paras_html := [], sections := [] } ∧
    build_html_rows (parse_input []) =
      [("H1".data, "<h1>Untitled</h1>".data),
       ("Intro".data,
        "<p class=\"h-text-size-14 h-font-primary\"></p>".data)] := by
  decide

/-- C2 counterexample: `html_entities` does not protect an already-built
anchor span (it re-escapes its markup), and it is not idempotent: a second
application double-encodes an ampersand.  This refutes the claim that
anchors are held out of escaping and that `&`, `<`, `>` outside anchors are
escaped exactly once on repeated application. -/
theorem c2_counterexample :
    html_entities "<a href=\"http://example.com\">Click</a>".data =
      "&lt;a href=\"http://example.com\"&gt;Click&lt;/a&gt;".data ∧
    html_entities (html_entities "A & B".data) ≠ html_entities "A & B".data := by
  decide

/-- C3 counterexample: a level-3 heading marker `Head (h3)` produces the
Block Row label "S3" (not "✏️ S3") with the heading wrapped in
`<h2><strong>…</strong></h2>` (not `<h3>`), and a level-2 heading marker
`A (h2)` likewise produces label "S3" (not "S2"): `build_html_rows` ignores
the heading level. -/
theorem c3_counterexample :
    (build_html_rows (parse_input
      [("Testo:".data, "Testo:".data),
       ("Head (h3)".data, "Head (h3)".data)]))[2]? =
      some ("S3".data, "<h2><strong>Head</strong></h2>".data) ∧
    (build_html_rows (parse_input
      [("Testo:".data, "Testo:".data),
       ("A (h2)".data, "A (h2)".data)]))[2]? =
      some ("S3".data, "<h2><strong>A</strong></h2>".data) ∧
    "S3".data ≠ "✏️ S3".data ∧ "S3".data ≠ "S2".data ∧
    ("<h3>".data.isPrefixOf "<h2><strong>Head</strong></h2>".data) = false := by
  decide

/-- C2 amended: `html_entities` escapes `&`, `<`, `>` everywhere, anchor
markup included (no anchor protection), and a single application escapes
each occurrence exactly once: the output contains no raw `<` or `>`, and
every `&` in the output starts one of the emitted entities.  It is not
idempotent: reapplying it to output containing an `&` strictly grows the
string (double-encoding). -/
theorem c2_amended_single_escape (s : Str) :
    '<' ∉ html_entities s ∧ '>' ∉ html_entities s ∧
    ampOkBy entityTails (html_entities s) = true ∧
    ('&' ∈ s → html_entities (html_entities s) ≠ html_entities s) := by
  have hesc : ∀ t : Str, t.isEmpty = false → html_entities t = escapeBy entityFor t := by
    intro t ht
    rw [html_entities, ht]
    rfl
  refine ⟨?_, ?_, ?_, ?_⟩
  · rw [html_entities]
    split_ifs with h
    · simp
    · exact not_mem_escapeBy (by decide) (by decide) s
  · rw [html_entities]
    split_ifs with h
    · simp
    · exact not_mem_escapeBy (by decide) (by decide) s
  · rw [html_entities]
    split_ifs with h
    · rfl
    · exact ampOkBy_escapeBy (by decide) (by decide) s
  · intro hmem
    have hne : s.isEmpty = false := by
      cases s with
      | nil => cases hmem
      | cons a t => rfl
    rw [hesc s hne]
    have hmem1 : '&' ∈ escapeBy entityFor s := amp_mem_escapeBy_entityFor hmem
    have hne1 : (escapeBy entityFor s).isEmpty = false := by
      cases hx : escapeBy entityFor s with
      | nil => rw [hx] at hmem1; cases hmem1
      | cons a t => rfl
    rw [hesc _ hne1]
    intro heq
    have := congrArg List.length heq
    have hlt := length_lt_escapeBy_entityFor hmem1
    omega

/-- C2 amended witness at the one-character string `&`. -/
theorem c2_amended_single_escape_witness :
    '<' ∉ html_entities "&".data ∧ '>' ∉ html_entities "&".data ∧
    ampOkBy entityTails (html_entities "&".data) = true ∧
    html_entities (html_entities "&".data) ≠ html_entities "&".data := by
  obtain ⟨h1, h2, h3, h4⟩ := c2_amended_single_escape "&".data
  exact ⟨h1, h2, h3, h4 (by decide)⟩

theorem pTag_getLast? (p : Str) : (pTag p).getLast? = some '>' := by
  rw [pTag, List.getLast?_append, List.getLast?_append]
  rfl

theorem section_fragment_shape (m : Str) (rest : List Str)
    (hrest : ∀ x ∈ rest, x.getLast? = some '>') :
    strip (joinNN (("<h2><strong>".data ++ m ++ "</strong></h2>".data) :: rest)) =
      joinNN (("<h2><strong>".data ++ m ++ "</strong></h2>".data) :: rest) ∧
    ("<h2><strong>".data.isPrefixOf
      (joinNN (("<h2><strong>".data ++ m ++ "</strong></h2>".data) :: rest))) = true := by
  have hHlast : ("<h2><strong>".data ++ m ++ "</strong></h2>".data).getLast? =
      some '>' := by
    rw [List.getLast?_append, List.getLast?_append]
    rfl
  have hall : ∀ x ∈ ("<h2><strong>".data ++ m ++ "</strong></h2>".data) :: rest,
      x.getLast? = some '>' := by
    intro x hx
    rcases List.mem_cons.mp hx with rfl | hx2
    · exact hHlast
    · exact hrest x hx2
  have hlast := joinNN_getLast? (l :=
    ("<h2><strong>".data ++ m ++ "</strong></h2>".data) :: rest) (by simp) hall
  obtain ⟨y, hy⟩ :=
    joinNN_cons_eq_append ("<h2><strong>".data ++ m ++ "</strong></h2>".data) rest
  have hhead : (joinNN (("<h2><strong>".data ++ m ++ "</strong></h2>".data)
      :: rest)).head? = some '<' := by
    rw [hy]
    rfl
  constructor
  · apply strip_eq_self
    · intro c hc
      rw [hhead] at hc
      cases hc
      decide
    · intro c hc
      rw [hlast] at hc
      cases hc
      decide
  · rw [hy, List.append_assoc]
    exact isPrefixOf_append_self _ _

theorem structure_outline_eq (parsed : Parsed) :
    build_structure_of_content (build_html_rows parsed) =
      "H1".data :: "Intro".data ::
        List.replicate parsed.sections.length "✏️ S3".data := by
  rw [build_structure_of_content]
  have hc : (build_html_rows parsed).countP (fun r => r.1 = "S3".data) =
      parsed.sections.length := by
    rw [build_html_rows]
    rw [List.countP_cons, List.countP_cons, List.countP_map]
    have e1 : (decide (("H1".data : Str) = "S3".data)) = false := by decide
    have e2 : (decide (("Intro".data : Str) = "S3".data)) = false := by decide
    simp only [e1, e2, if_false, Nat.add_zero]
    have : ((fun (r : Str × Str) => decide (r.1 = "S3".data)) ∘
        (fun sec : Section =>
          (("S3".data : Str),
            strip (joinNN (("<h2><strong>".data ++ html_entities sec.title_raw ++
              "</strong></h2>".data) ::
              ((sec.paras_html.filter (fun p => !p.isEmpty)).map pTag)))))) =
        fun _ => true := by
      funext sec
      simp
    rw [this, List.countP_true]
    simp
  rw [hc]

/-- C3 amended: every Section Block Row carries the fixed label "S3" and
wraps its heading text in `<h2><strong>…</strong></h2>` regardless of the
heading marker's level ((h2) and (h3) are not distinguished), and the
structure outline shows exactly one "✏️ S3" per section. -/
theorem c3_amended_rows (parsed : Parsed) :
    (∀ r ∈ (build_html_rows parsed).drop 2,
      r.1 = "S3".data ∧ ("<h2><strong>".data.isPrefixOf r.2) = true) ∧
    build_structure_of_content (build_html_rows parsed) =
      "H1".data :: "Intro".data ::
        List.replicate parsed.sections.length "✏️ S3".data := by
  constructor
  · intro r hr
    rw [build_html_rows] at hr
    simp only [List.drop_succ_cons, List.drop_zero] at hr
    obtain ⟨sec, hsec, hfr⟩ := List.mem_map.mp hr
    subst hfr
    refine ⟨rfl, ?_⟩
    have hrest : ∀ x ∈ (sec.paras_html.filter (fun p => !p.isEmpty)).map pTag,
        x.getLast? = some '>' := by
      intro x hx
      obtain ⟨p, _, hp⟩ := List.mem_map.mp hx
      subst hp
      exact pTag_getLast? p
    obtain ⟨hstrip, hpre⟩ :=
      section_fragment_shape (html_entities sec.title_raw) _ hrest
    show ("<h2><strong>".data.isPrefixOf (strip (joinNN _))) = true
    rw [hstrip]
    exact hpre
  · exact structure_outline_eq parsed

/-- C9: every Block Row list starts with the "H1" row followed by the
"Intro" row, and when there are no intro paragraphs the Intro row's fragment
is the placeholder styled paragraph, not the empty string. -/
theorem c9_rows_start_h1_intro (p : Parsed) :
    ((build_html_rows p).map Prod.fst).take 2 = ["H1".data, "Intro".data] ∧
    (p.intro_paras_html = [] →
      (build_html_rows p)[1]? =
        some ("Intro".data,
          "<p class=\"h-text-size-14 h-font-primary\"></p>".data)) := by
  constructor
  · rw [build_html_rows]
    rfl
  · intro h
    rw [build_html_rows]
    have : pTag [] =
        "<p class=\"h-text-size-14 h-font-primary\"></p>".data := by decide
    simp [h, this]

/-- C9 witness: a parsed document with no intro paragraphs. -/
theorem c9_rows_start_h1_intro_witness :
    ((build_html_rows
        { meta := emptyMeta, h1_raw := "T".data,
          intro_paras_html := [], sections := [] }).map Prod.fst).take 2 =
      ["H1".data, "Intro".data] ∧
    (build_html_rows
        { meta := emptyMeta, h1_raw := "T".data,
          intro_paras_html := [], sections := [] })[1]? =
      some ("Intro".data,
        "<p class=\"h-text-size-14 h-font-primary\"></p>".data) := by
  obtain ⟨h1, h2⟩ := c9_rows_start_h1_intro
    { meta := emptyMeta, h1_raw := "T".data,
      intro_paras_html := [], sections := [] }
  exact ⟨h1, h2 rfl⟩

/-- C5: when no body line matches a heading marker, no Section is created:
the intro list collects exactly the (nonempty, stripped) html fragments of
the body lines, Sections is empty, and the structure outline is exactly
["H1", "Intro"]. -/
theorem c5_no_heading_markers (lines : List (Str × Str))
    (h : ∀ p ∈ bodyPairs lines, headingMatch? (strip p.1) = none) :
    (parse_input lines).sections = [] ∧
    (parse_input lines).intro_paras_html =
      ((bodyPairs lines).map (fun p => strip p.2)).filter
        (fun t => !t.isEmpty) ∧
    build_structure_of_content (build_html_rows (parse_input lines)) =
      ["H1".data, "Intro".data] := by
  have hfold := bodyFold_no_heading h initBodyState rfl
  have hsec : (parse_input lines).sections = [] := by
    simp only [parse_input, hfold]
    rfl
  have hintro : (parse_input lines).intro_paras_html =
      ((bodyPairs lines).map (fun p => strip p.2)).filter
        (fun t => !t.isEmpty) := by
    simp only [parse_input, hfold]
    show (((List.nil ++ _).filter _ : List Str)) = _
    rw [List.nil_append, List.filter_filter]
    simp
  refine ⟨hsec, hintro, ?_⟩
  rw [structure_outline_eq, hsec]
  rfl

/-- C5 witness: a single heading-free body line. -/
theorem c5_no_heading_markers_witness :
    (parse_input [("Hi there".data, "Hi there".data)]).sections = [] ∧
    (parse_input [("Hi there".data, "Hi there".data)]).intro_paras_html =
      ((bodyPairs [("Hi there".data, "Hi there".data)]).map
        (fun p => strip p.2)).filter (fun t => !t.isEmpty) ∧
    build_structure_of_content
        (build_html_rows (parse_input [("Hi there".data, "Hi there".data)])) =
      ["H1".data, "Intro".data] :=
  c5_no_heading_markers [("Hi there".data, "Hi there".data)] (by decide)

/-- C7: when no body-start marker line occurs in the input, the fallback
keeps as body content every line whose raw text does not match the
`label:value` metadata pattern. -/
theorem c7_fallback_keeps_non_meta (lines : List (Str × Str))
    (hmark : ∀ l ∈ lines, testoMatch l.1 = false) :
    bodyPairs lines = fallbackBody lines ∧
    ∀ l ∈ lines, metaMatch? l.1 = none → l ∈ bodyPairs lines := by
  have hmf := (metaFold_no_marker hmark initMetaState rfl).2
  have hbp : bodyPairs lines = fallbackBody lines := by
    rw [bodyPairs]
    simp only [hmf]
    rfl
  refine ⟨hbp, ?_⟩
  intro l hl hnone
  rw [hbp, fallbackBody]
  apply List.mem_filter.mpr
  refine ⟨hl, ?_⟩
  rw [hnone]

/-- C7 witness: a prose line with no colon in a marker-free document. -/
theorem c7_fallback_keeps_non_meta_witness :
    bodyPairs [("Some prose".data, "Some prose".data)] =
      fallbackBody [("Some prose".data, "Some prose".data)] ∧
    ("Some prose".data, "Some prose".data) ∈
      bodyPairs [("Some prose".data, "Some prose".data)] := by
  obtain ⟨h1, h2⟩ := c7_fallback_keeps_non_meta
    [("Some prose".data, "Some prose".data)] (by decide)
  exact ⟨h1, h2 _ (by simp) (by decide)⟩

/-- C1: the H1 resolution of `parse_input_docx` (converter.py:409-415)
follows the deterministic fall-through order: a nonempty explicit H1
metadata value wins outright (over Title and body alike); otherwise a
nonempty stripped Title metadata value is used; otherwise the stripped raw
text of the first body line when that is nonempty; otherwise the literal
"Untitled".  "Empty Title metadata" is the computed value, so an explicit
`Title:` line with empty value falls through exactly like an absent one
(and likewise an `H1:` line with empty value).  In particular, with no
explicit H1 value, empty Title metadata and first body line "Welcome", the
resolved H1 is "Welcome". -/
theorem c1_h1_resolution (lines : List (Str × Str)) :
    ((lines.foldl metaStep initMetaState).h1 ≠ [] →
      (parse_input lines).h1_raw =
        strip (lines.foldl metaStep initMetaState).h1) ∧
    ((lines.foldl metaStep initMetaState).h1 = [] →
      strip (lines.foldl metaStep initMetaState).meta.title ≠ [] →
      (parse_input lines).h1_raw =
        strip (lines.foldl metaStep initMetaState).meta.title) ∧
    ((lines.foldl metaStep initMetaState).h1 = [] →
      strip (lines.foldl metaStep initMetaState).meta.title = [] →
      ∀ q, (bodyPairs lines).head? = some q → strip q.1 ≠ [] →
        (parse_input lines).h1_raw = strip q.1) ∧
    ((lines.foldl metaStep initMetaState).h1 = [] →
      strip (lines.foldl metaStep initMetaState).meta.title = [] →
      ((bodyPairs lines).head?.all fun q => (strip q.1).isEmpty) = true →
      (parse_input lines).h1_raw = "Untitled".data) ∧
    ((lines.foldl metaStep initMetaState).h1 = [] →
      strip (lines.foldl metaStep initMetaState).meta.title = [] →
      ((bodyPairs lines).head?.map fun q => strip q.1) =
        some "Welcome".data →
      (parse_input lines).h1_raw = "Welcome".data) := by
  have hb : ∀ x : Str, x ≠ [] → x.isEmpty = false := by
    intro x hx
    cases x with
    | nil => exact absurd rfl hx
    | cons a t => rfl
  have h3 : (lines.foldl metaStep initMetaState).h1 = [] →
      strip (lines.foldl metaStep initMetaState).meta.title = [] →
      ∀ q, (bodyPairs lines).head? = some q → strip q.1 ≠ [] →
        (parse_input lines).h1_raw = strip q.1 := by
    intro h ht q hq hqne
    have h1e : ((lines.foldl metaStep initMetaState).h1).isEmpty = true := by
      rw [h]
      rfl
    have hte : (strip (lines.foldl metaStep initMetaState).meta.title).isEmpty
        = true := by
      rw [ht]
      rfl
    have hqe := hb _ hqne
    simp only [parse_input, h1e, hte, hq, hqe, if_true, Bool.false_eq_true,
      if_false]
    exact strip_idem _
  refine ⟨?_, ?_, h3, ?_, ?_⟩
  · intro h
    have h1e := hb _ h
    simp only [parse_input, h1e, Bool.false_eq_true, if_false]
  · intro h ht
    have h1e : ((lines.foldl metaStep initMetaState).h1).isEmpty = true := by
      rw [h]
      rfl
    have hte := hb _ ht
    simp only [parse_input, h1e, hte, if_true, Bool.false_eq_true, if_false]
    exact strip_idem _
  · intro h ht hall
    have h1e : ((lines.foldl metaStep initMetaState).h1).isEmpty = true := by
      rw [h]
      rfl
    have hte : (strip (lines.foldl metaStep initMetaState).meta.title).isEmpty
        = true := by
      rw [ht]
      rfl
    cases hh : (bodyPairs lines).head? with
    | none =>
      simp only [parse_input, h1e, hte, hh, if_true]
      decide
    | some q =>
      have hqe : (strip q.1).isEmpty = true := by
        rw [hh] at hall
        simpa [Option.all] using hall
      simp only [parse_input, h1e, hte, hh, hqe, if_true]
      decide
  · intro h ht hmap
    obtain ⟨q, hq, hqs⟩ : ∃ q, (bodyPairs lines).head? = some q ∧
        strip q.1 = "Welcome".data := by
      cases hh : (bodyPairs lines).head? with
      | none => rw [hh] at hmap; cases hmap
      | some q =>
        rw [hh] at hmap
        exact ⟨q, rfl, by simpa using hmap⟩
    have hqne : strip q.1 ≠ [] := by
      rw [hqs]
      simp
    exact (h3 h ht q hq hqne).trans hqs

/-- C1 witness: the four resolution branches at concrete documents — an H1
line beating a Title line and a body line; a Title line beating a body
line; an explicit empty `Title:` line falling through to the body line
"Welcome"; and the empty document resolving to "Untitled". -/
theorem c1_h1_resolution_witness :
    (parse_input
      [("H1: Boss".data, "H1: Boss".data),
       ("Title: Foo".data, "Title: Foo".data),
       ("Testo:".data, "Testo:".data),
       ("Welcome".data, "Welcome".data)]).h1_raw = "Boss".data ∧
    (parse_input
      [("Title: Foo".data, "Title: Foo".data),
       ("Testo:".data, "Testo:".data),
       ("Welcome".data, "Welcome".data)]).h1_raw = "Foo".data ∧
    (parse_input
      [("Title:".data, "Title:".data),
       ("Testo:".data, "Testo:".data),
       ("Welcome".data, "Welcome".data)]).h1_raw = "Welcome".data ∧
    (parse_input []).h1_raw = "Untitled".data := by
  refine ⟨?_, ?_, ?_, ?_⟩
  · exact ((c1_h1_resolution
      [("H1: Boss".data, "H1: Boss".data),
       ("Title: Foo".data, "Title: Foo".data),
       ("Testo:".data, "Testo:".data),
       ("Welcome".data, "Welcome".data)]).1 (by decide)).trans (by decide)
  · exact ((c1_h1_resolution
      [("Title: Foo".data, "Title: Foo".data),
       ("Testo:".data, "Testo:".data),
       ("Welcome".data, "Welcome".data)]).2.1 (by decide)
        (by decide)).trans (by decide)
  · exact (c1_h1_resolution
      [("Title:".data, "Title:".data),
       ("Testo:".data, "Testo:".data),
       ("Welcome".data, "Welcome".data)]).2.2.2.2 (by decide) (by decide)
        (by decide)
  · exact (c1_h1_resolution []).2.2.2.1 (by decide) (by decide) (by decide)

/-- C6: metadata values are never entity-encoded.  Generally, the output
metadata table carries each metadata value verbatim (no `html_entities`
applied); concretely, parsing a document whose Description is `A & B`
stores and writes the value raw, while the same literal text as a body
paragraph is extracted as `A &amp; B` and appears escaped in the Intro
Block Row. -/
theorem c6_metadata_raw_vs_body_escaped (p : Parsed) :
    write_output_meta_cells p =
      [("Title".data, p.meta.title),
       ("Description".data, p.meta.description),
       ("URL".data, p.meta.url),
       ("Territories".data, p.meta.territories),
       ("Target Keyword".data, p.meta.targetKeyword)] ∧
    (parse_input
      [("Description: A & B".data, "Description: A &amp; B".data),
       ("Testo:".data, "Testo:".data),
       ("A & B".data,
        paragraph_to_html [PChild.run none none "A & B".data])]).meta.description =
      "A & B".data ∧
    (write_output_meta_cells (parse_input
      [("Description: A & B".data, "Description: A &amp; B".data),
       ("Testo:".data, "Testo:".data),
       ("A & B".data,
        paragraph_to_html [PChild.run none none "A & B".data])]))[1]? =
      some ("Description".data, "A & B".data) ∧
    paragraph_to_html [PChild.run none none "A & B".data] = "A &amp; B".data ∧
    (build_html_rows (parse_input
      [("Description: A & B".data, "Description: A &amp; B".data),
       ("Testo:".data, "Testo:".data),
       ("A & B".data,
        paragraph_to_html [PChild.run none none "A & B".data])]))[1]? =
      some ("Intro".data,
        "<p class=\"h-text-size-14 h-font-primary\">A &amp; B</p>".data) := by
  refine ⟨rfl, by decide, by decide, by decide, by decide⟩

/-- C10: anchors attribute-escape their URL.  The hyperlink branch of
`paragraph_to_html` emits exactly the anchor fragment with the URL passed
through attribute escaping, and for every URL the escaped href text
contains no raw `"`, `<` or `>`, and every `&` in it begins an emitted
entity (so no raw ampersand either). -/
theorem c10_anchor_href_escaped (u text : Str) (h : strip text ≠ []) :
    paragraph_to_html [PChild.hyperlink (some u) text] =
      anchorHtml u (strip text) ∧
    '"' ∉ escapeAttr u ∧ '<' ∉ escapeAttr u ∧ '>' ∉ escapeAttr u ∧
    ampOkBy attrEntityTails (escapeAttr u) = true := by
  have he : (strip text).isEmpty = false := by
    cases hx : strip text with
    | nil => exact absurd hx h
    | cons a t => rfl
  refine ⟨?_, ?_, ?_, ?_, ?_⟩
  · have hstep : stepChild initPState (PChild.hyperlink (some u) text) =
        ⟨[anchorHtml u (strip text)], false, [], none, false, []⟩ := by
      rw [stepChild]
      simp only [Option.getD_some, he, Bool.false_eq_true, if_false,
        initPState, List.nil_append]
    rw [paragraph_to_html, List.foldl_cons, List.foldl_nil, hstep]
    rw [if_neg (by exact Bool.false_ne_true)]
    rw [List.flatten_cons, List.flatten_nil, List.append_nil]
    exact strip_anchorHtml u (strip text)
  · exact @not_mem_escapeBy attrEntityFor '"' (by decide) (by decide) u
  · exact @not_mem_escapeBy attrEntityFor '<' (by decide) (by decide) u
  · exact @not_mem_escapeBy attrEntityFor '>' (by decide) (by decide) u
  · exact @ampOkBy_escapeBy attrEntityFor attrEntityTails
      (by decide) (by decide) u

/-- C10 witness: a URL containing every character needing attribute
escaping. -/
theorem c10_anchor_href_escaped_witness :
    paragraph_to_html
        [PChild.hyperlink (some "http://x/?a=1&b=\"<>'".data) " go ".data] =
      anchorHtml "http://x/?a=1&b=\"<>'".data "go".data ∧
    '"' ∉ escapeAttr "http://x/?a=1&b=\"<>'".data ∧
    '<' ∉ escapeAttr "http://x/?a=1&b=\"<>'".data ∧
    '>' ∉ escapeAttr "http://x/?a=1&b=\"<>'".data ∧
    ampOkBy attrEntityTails (escapeAttr "http://x/?a=1&b=\"<>'".data) = true := by
  have := c10_anchor_href_escaped "http://x/?a=1&b=\"<>'".data " go ".data
    (by decide)
  simpa using this

theorem quotedAt_hyperlink (u : Str) (hne : u ≠ []) (hq : '"' ∉ u) :
    quotedAt ("HYPERLINK \"".data ++ (u ++ "\"".data)) = some u := by
  have hlen9 : (9 : Nat) ≤ ("HYPERLINK \"".data).length := by decide
  have htake : ("HYPERLINK \"".data ++ (u ++ "\"".data)).take 9 =
      "HYPERLINK".data := by
    rw [List.take_append_of_le_length hlen9]
    decide
  have hdrop : ("HYPERLINK \"".data ++ (u ++ "\"".data)).drop 9 =
      ' ' :: '"' :: (u ++ "\"".data) := by
    rw [List.drop_append_of_le_length hlen9]
    rfl
  have hmapl : ("HYPERLINK".data).map Char.toLower = "hyperlink".data := by
    decide
  have hws : (' ' :: '"' :: (u ++ "\"".data)).takeWhile pySpace = [' '] := by
    rw [List.takeWhile_cons]
    simp only [show pySpace ' ' = true from rfl, if_true]
    rw [List.takeWhile_cons]
    simp only [show pySpace '"' = false from rfl, Bool.false_eq_true, if_false]
  have hqall : ∀ c ∈ u, (fun c => decide (c ≠ '"')) c = true := by
    intro c hc
    simp only [decide_eq_true_eq]
    intro hcc
    exact hq (hcc ▸ hc)
  have htw : (u ++ "\"".data).takeWhile (fun c => decide (c ≠ '"')) = u := by
    rw [takeWhile_append_of_all hqall]
    show u ++ ('"' :: []).takeWhile (fun c => decide (c ≠ '"')) = u
    rw [List.takeWhile_cons]
    simp
  have hue : u.isEmpty = false := by
    cases u with
    | nil => exact absurd rfl hne
    | cons a t => rfl
  have hdl : ((u ++ "\"".data).drop u.length) = "\"".data := List.drop_left u _
  have hqe : ("\"".data).isEmpty = false := rfl
  rw [quotedAt, htake, hmapl, if_pos rfl]
  simp only [hdrop, hws, List.isEmpty_cons, Bool.false_eq_true, if_false,
    List.length_cons, List.length_nil, List.drop_succ_cons, List.drop_zero,
    htw, hue, hdl, hqe]

theorem extract_url_quoted (u : Str) (hne : u ≠ []) (hq : '"' ∉ u) :
    extractUrlFromInstr ("HYPERLINK \"".data ++ (u ++ "\"".data)) =
      strip u := by
  have hql := quotedAt_hyperlink u hne hq
  have hlast : ("HYPERLINK \"".data ++ (u ++ "\"".data)).getLast? =
      some '"' := by
    rw [← List.append_assoc]
    show (("HYPERLINK \"".data ++ u) ++ ['"']).getLast? = some '"'
    exact List.getLast?_concat _
  have hstrip : strip ("HYPERLINK \"".data ++ (u ++ "\"".data)) =
      "HYPERLINK \"".data ++ (u ++ "\"".data) := by
    apply strip_eq_self
    · intro c hc
      have : ("HYPERLINK \"".data ++ (u ++ "\"".data)).head? = some 'H' := rfl
      rw [this] at hc
      cases hc
      decide
    · intro c hc
      rw [hlast] at hc
      cases hc
      decide
  have hsq : searchQuoted ("HYPERLINK \"".data ++ (u ++ "\"".data)) =
      some u := by
    rw [show ("HYPERLINK \"".data ++ (u ++ "\"".data)) =
        'H' :: ("YPERLINK \"".data ++ (u ++ "\"".data)) from rfl] at hql ⊢
    rw [searchQuoted, hql]
  have hie : ("HYPERLINK \"".data ++ (u ++ "\"".data)).isEmpty = false := rfl
  rw [extractUrlFromInstr, hie]
  show (let i := strip ("HYPERLINK \"".data ++ (u ++ "\"".data))
    match searchQuoted i with
    | some v => strip v
    | none =>
      match searchBare i with
      | some v => strip v
      | none => "#".data) = strip u
  simp only [hstrip, hsq]

/-- C4: a complex hyperlink field with instruction text
`HYPERLINK "http://example.com"` and displayed text "Click" produces
exactly the fragment `<a href="http://example.com">Click</a>`; generally
the URL is the first quoted argument after the HYPERLINK token, else the
first whitespace-delimited argument, else `#`. -/
theorem c4_hyperlink_field (u : Str) (hne : u ≠ []) (hq : '"' ∉ u) :
    paragraph_to_html
      [PChild.run (some FldType.fldBegin) none [],
       PChild.run none (some "HYPERLINK \"http://example.com\"".data) [],
       PChild.run (some FldType.fldSeparate) none [],
       PChild.run none none "Click".data,
       PChild.run (some FldType.fldEnd) none []] =
      "<a href=\"http://example.com\">Click</a>".data ∧
    extractUrlFromInstr ("HYPERLINK \"".data ++ (u ++ "\"".data)) = strip u ∧
    extractUrlFromInstr "HYPERLINK http://x".data = "http://x".data ∧
    extractUrlFromInstr "no instruction here".data = "#".data := by
  exact ⟨by decide, extract_url_quoted u hne hq, by decide, by decide⟩

/-- C4 witness at the URL of the specification's example. -/
theorem c4_hyperlink_field_witness :
    paragraph_to_html
      [PChild.run (some FldType.fldBegin) none [],
       PChild.run none (some "HYPERLINK \"http://example.com\"".data) [],
       PChild.run (some FldType.fldSeparate) none [],
       PChild.run none none "Click".data,
       PChild.run (some FldType.fldEnd) none []] =
      "<a href=\"http://example.com\">Click</a>".data ∧
    extractUrlFromInstr ("HYPERLINK \"".data ++
        ("http://example.com".data ++ "\"".data)) =
      strip "http://example.com".data := by
  obtain ⟨h1, h2, h3, h4⟩ :=
    c4_hyperlink_field "http://example.com".data (by decide) (by decide)
  exact ⟨h1, h2⟩

end DocToHtml
